import Mathlib

/-!
Verification of the multi-locale resolution engine of `process_multi_locale.py`
(repository `Oneirag/rendercv`).  The script walks a YAML document tree once per
declared locale, selects language-keyed branches, deep-merges them with common
content, and post-processes paths and section headings.  We embed the document
values and every function of the script as executable Lean definitions and
prove the specified properties about them.
-/

set_option maxHeartbeats 1000000
set_option linter.unusedVariables false

namespace RenderCVMultiLocale

/-- A YAML document tree as handed to `process_multi_locale.py` by
`ruamel.yaml`: string-keyed mappings (association lists in declaration order),
sequences, and scalars (null, boolean, integer, string). -/
inductive Yaml where
  | nullV : Yaml
  | boolV : Bool → Yaml
  | intV : Int → Yaml
  | strV : String → Yaml
  | seq : List Yaml → Yaml
  | map : List (String × Yaml) → Yaml

/-- Python `dict.get` on a string-keyed mapping: the value stored at the first
occurrence of the key (`dict`s hold each key once). -/
def lookupY : List (String × Yaml) → String → Option Yaml
  | [], _ => none
  | (k, v) :: t, key => if k = key then some v else lookupY t key

/-- Python `key in d` for a mapping. -/
def containsKey (l : List (String × Yaml)) (key : String) : Bool :=
  (lookupY l key).isSome

/-- Python `d[key] = v`: replace the value at an existing key in place (the key
keeps its position), append the binding otherwise. -/
def updateY : List (String × Yaml) → String → Yaml → List (String × Yaml)
  | [], key, v => [(key, v)]
  | (k, w) :: t, key, v => if k = key then (k, v) :: t else (k, w) :: updateY t key v

/-- Python `d.pop(key)`: drop the binding at the first occurrence of the key. -/
def removeY : List (String × Yaml) → String → List (String × Yaml)
  | [], _ => []
  | (k, w) :: t, key => if k = key then t else (k, w) :: removeY t key

/-- Python `isinstance(v, dict)`. -/
def Yaml.isDict : Yaml → Bool
  | .map _ => true
  | _ => false

/-- Python `isinstance(v, list)`. -/
def Yaml.isList : Yaml → Bool
  | .seq _ => true
  | _ => false

/-- Python `isinstance(v, str)`. -/
def Yaml.isStr : Yaml → Bool
  | .strV _ => true
  | _ => false

/-- Python truthiness of a YAML value (used by guards such as
`if data["settings"]:`). -/
def Yaml.truthy : Yaml → Bool
  | .nullV => false
  | .boolV b => b
  | .intV n => n != 0
  | .strV s => s != ""
  | .seq l => !l.isEmpty
  | .map l => !l.isEmpty

/-- Contiguous-sublist containment on character lists. -/
def charsInfix (pat : List Char) : List Char → Bool
  | [] => pat.isEmpty
  | c :: rest => pat.isPrefixOf (c :: rest) || charsInfix pat rest

/-- Python `pat in s` on strings: contiguous-substring containment. -/
def strContains (s pat : String) : Bool :=
  charsInfix pat.toList s.toList

/-- Python `s.endswith(suffix)`. -/
def strEndsWith (s suffix : String) : Bool :=
  suffix.toList.isSuffixOf s.toList

/-- Python `key in container` for an arbitrary YAML value: key lookup on a
mapping, element equality on a sequence (a string key only ever equals a string
element), substring test on a string; `none` models the `TypeError` Python
raises when the value does not support `in`. -/
def pyContains (container : Yaml) (key : String) : Option Bool :=
  match container with
  | .map l => some (containsKey l key)
  | .seq l => some (l.any (fun v => match v with | .strV s => s == key | _ => false))
  | .strV s => some (strContains s key)
  | _ => none

theorem sizeOf_lookupY : ∀ {l : List (String × Yaml)} {k : String} {v : Yaml},
    lookupY l k = some v → sizeOf v < sizeOf l
  | (k', v') :: t, k, v, h => by
    by_cases hk : k' = k
    · simp only [lookupY, hk, if_pos] at h
      cases h
      simp only [List.cons.sizeOf_spec, Prod.mk.sizeOf_spec]
      omega
    · simp only [lookupY, hk, if_neg, not_false_iff] at h
      have := sizeOf_lookupY h
      simp only [List.cons.sizeOf_spec, Prod.mk.sizeOf_spec]
      omega

theorem sizeOf_filter_le (p : String × Yaml → Bool) (l : List (String × Yaml)) :
    sizeOf (l.filter p) ≤ sizeOf l := by
  induction l with
  | nil => simp
  | cons kv t ih =>
    by_cases hp : p kv
    · simp only [List.filter_cons, hp, if_pos, List.cons.sizeOf_spec]
      omega
    · simp only [List.filter_cons, hp, Bool.false_eq_true, if_neg, not_false_iff,
        List.cons.sizeOf_spec]
      omega

theorem sizeOf_filter_lt (p : String × Yaml → Bool) (l : List (String × Yaml))
    (kv : String × Yaml) (hm : kv ∈ l) (hp : p kv = false) :
    sizeOf (l.filter p) < sizeOf l := by
  induction l with
  | nil => cases hm
  | cons kv' t ih =>
    rcases List.mem_cons.mp hm with h | h
    · subst h
      simp only [List.filter_cons, hp, Bool.false_eq_true, if_neg, not_false_iff,
        List.cons.sizeOf_spec]
      have := sizeOf_filter_le p t
      have : 0 < sizeOf kv := by cases kv; simp only [Prod.mk.sizeOf_spec]; omega
      omega
    · by_cases hq : p kv'
      · simp only [List.filter_cons, hq, if_pos, List.cons.sizeOf_spec]
        have := ih h
        omega
      · simp only [List.filter_cons, hq, Bool.false_eq_true, if_neg, not_false_iff,
          List.cons.sizeOf_spec]
        have := sizeOf_filter_le p t
        have : 0 < sizeOf kv' := by cases kv'; simp only [Prod.mk.sizeOf_spec]; omega
        omega

mutual

/-- `deep_merge` from `process_multi_locale.py`: when both arguments are
mappings, the result keeps all keys of `a` in order (each value rewritten from
`b`: two mappings merge recursively, anything else is overwritten by `b`'s
value) and appends the keys that occur only in `b` in `b`'s order, exactly as
`result = dict(a)` updated by the `for k, vb in b.items()` loop; otherwise `b`
is returned. -/
def deep_merge : Yaml → Yaml → Yaml
  | .map a, .map b =>
    .map (merge_entries a b ++ b.filter (fun kv => !containsKey a kv.1))
  | _, b => b
termination_by x y => sizeOf x + sizeOf y
decreasing_by
  simp only [Yaml.map.sizeOf_spec]
  omega

/-- The effect of `deep_merge`'s update loop on the entries of `dict(a)`:
each value of `a` whose key also occurs in `b` is replaced according to `b`. -/
def merge_entries : List (String × Yaml) → List (String × Yaml) → List (String × Yaml)
  | [], _ => []
  | (k, va) :: rest, b =>
    (match h : lookupY b k with
     | some vb => (k, if va.isDict && vb.isDict then deep_merge va vb else vb)
     | none => (k, va)) :: merge_entries rest b
termination_by l b => sizeOf l + sizeOf b
decreasing_by
  · have h1 := sizeOf_lookupY h
    simp only [List.cons.sizeOf_spec, Prod.mk.sizeOf_spec]
    omega
  · simp only [List.cons.sizeOf_spec, Prod.mk.sizeOf_spec]
    omega

end

mutual

/-- `build_for_lang` from `process_multi_locale.py`: the per-locale tree
resolver.  A mapping holding at least one key of `langs_set` is a language
branch point: the non-language entries are resolved recursively as the common
part; `node.get(lang, None)` selects the branch, `None` (the key being absent
or bound to YAML null) falls back to the common part, any other branch is
resolved and deep-merged over the common part.  A mapping without language
keys and a sequence are rebuilt with every member resolved; scalars are
returned unchanged. -/
def build_for_lang (node : Yaml) (lang : String) (langs_set : List String) : Yaml :=
  match node with
  | .map l =>
    if hpresent : ((l.map Prod.fst).filter (fun k => langs_set.contains k)) ≠ [] then
      let common := l.filter (fun kv => !langs_set.contains kv.1)
      let common_sub := build_for_lang (.map common) lang langs_set
      match hsel : lookupY l lang with
      | none => common_sub
      | some .nullV => common_sub
      | some selected => deep_merge common_sub (build_for_lang selected lang langs_set)
    else
      .map (build_entries l lang langs_set)
  | .seq items => .seq (build_items items lang langs_set)
  | scalar => scalar
termination_by sizeOf node
decreasing_by
  all_goals first
    | (rcases List.exists_mem_of_ne_nil _ hpresent with ⟨k, hk⟩
       rcases List.mem_map.mp (List.mem_filter.mp hk).1 with ⟨kv, hkv, rfl⟩
       have hlt := sizeOf_filter_lt (fun kv => !langs_set.contains kv.1) l kv hkv
         (by simpa using (List.mem_filter.mp hk).2)
       simp only [Yaml.map.sizeOf_spec]
       omega)
    | (have hlk := sizeOf_lookupY hsel
       simp only [Yaml.map.sizeOf_spec]
       omega)
    | (simp only [Yaml.map.sizeOf_spec, Yaml.seq.sizeOf_spec]
       omega)

/-- The dict comprehension `{k: build_for_lang(v, lang, langs_set) for k, v in
node.items()}` of `build_for_lang`. -/
def build_entries : List (String × Yaml) → String → List String → List (String × Yaml)
  | [], _, _ => []
  | (k, v) :: rest, lang, langs_set =>
    (k, build_for_lang v lang langs_set) :: build_entries rest lang langs_set
termination_by l _ _ => sizeOf l
decreasing_by
  all_goals simp only [List.cons.sizeOf_spec, Prod.mk.sizeOf_spec]
  all_goals omega

/-- The list comprehension `[build_for_lang(item, lang, langs_set) for item in
node]` of `build_for_lang`. -/
def build_items : List Yaml → String → List String → List Yaml
  | [], _, _ => []
  | v :: rest, lang, langs_set =>
    build_for_lang v lang langs_set :: build_items rest lang langs_set
termination_by l _ _ => sizeOf l
decreasing_by
  all_goals simp only [List.cons.sizeOf_spec]
  all_goals omega

end

/-- `hoist_languages_to_top` from `process_multi_locale.py`: one resolved
document per declared language (`set(languages)` is membership-equivalent to
the list itself). -/
def hoist_languages_to_top (data : Yaml) (languages : List String) :
    List (String × Yaml) :=
  languages.map (fun lang => (lang, build_for_lang data lang languages))

/-- A Python exception of the script: `ValueError` with its message, or a
`TypeError`/`AttributeError` from applying an operation to a value of the
wrong shape. -/
inductive PyErr where
  | valueError : String → PyErr
  | typeError : PyErr
  deriving DecidableEq

/-- The `for k, v in render_command.items()` loop of `fix_locale_paths`:
each string value at a key ending in `_path` must contain `LOCALE` and has
every occurrence replaced by the locale code, in place and in iteration
order.  On a violating entry the loop stops with the `ValueError` of the
source, leaving that entry and the later ones untouched. -/
def fix_rc (locale : String) : List (String × Yaml) → List (String × Yaml) × Option PyErr
  | [] => ([], none)
  | (k, v) :: rest =>
    match v with
    | .strV s =>
      if strEndsWith k "_path" then
        if strContains s "LOCALE" then
          let r := fix_rc locale rest
          ((k, .strV (s.replace "LOCALE" locale)) :: r.1, r.2)
        else
          ((k, .strV s) :: rest,
            some (.valueError ("Path '" ++ k ++ "' must include 'LOCALE' keyword.")))
      else
        let r := fix_rc locale rest
        ((k, v) :: r.1, r.2)
    | _ =>
      let r := fix_rc locale rest
      ((k, v) :: r.1, r.2)

/-- One iteration of the `for locale, data in locale_data.items()` loop of
`fix_locale_paths`: the guards `"settings" in data and data["settings"]` and
`"render_command" in settings and settings["render_command"]` followed by the
path-substitution loop, the substituted `render_command` written back through
the nested mappings (Python mutates the shared objects in place).  `none`
components of `pyContains`, a truthy non-mapping `settings`, and a truthy
non-mapping `render_command` surface the `TypeError` Python would raise. -/
def fix_one_paths (locale : String) (data : Yaml) : Yaml × Option PyErr :=
  match data with
  | .map dl =>
    match lookupY dl "settings" with
    | none => (data, none)
    | some settings =>
      if settings.truthy then
        match pyContains settings "render_command" with
        | none => (data, some .typeError)
        | some false => (data, none)
        | some true =>
          match settings with
          | .map sl =>
            match lookupY sl "render_command" with
            | none => (data, none)
            | some rc =>
              if rc.truthy then
                match rc with
                | .map rcl =>
                  let r := fix_rc locale rcl
                  (.map (updateY dl "settings"
                      (.map (updateY sl "render_command" (.map r.1)))), r.2)
                | _ => (data, some .typeError)
              else (data, none)
          | _ => (data, some .typeError)
      else (data, none)
  | _ =>
    match pyContains data "settings" with
    | none => (data, some .typeError)
    | some true => (data, some .typeError)
    | some false => (data, none)

/-- `fix_locale_paths` from `process_multi_locale.py`, as the state of
`locale_data` at the moment the loop finishes or raises: documents before the
offending one keep their substitutions, the rest of the list is untouched, and
the second component carries the raised exception if any. -/
def fix_locale_paths : List (String × Yaml) → List (String × Yaml) × Option PyErr
  | [] => ([], none)
  | (locale, data) :: rest =>
    let r := fix_one_paths locale data
    match r.2 with
    | some e => ((locale, r.1) :: rest, some e)
    | none =>
      let rr := fix_locale_paths rest
      ((locale, r.1) :: rr.1, rr.2)

/-- The dict comprehension `{tailored.get(k, k): v for k, v in
sections.items()}` of `fix_tailored_locale_headings`, one pair at a time:
the new display key is the table entry when present, the original key
otherwise.  A table value that is not a string would escape the string-keyed
mapping model (and the YAML document shape), so it is reported as out of
model via `none`. -/
def renameKeys (tbl : List (String × Yaml)) :
    List (String × Yaml) → Option (List (String × Yaml))
  | [] => some []
  | (k, v) :: rest =>
    match lookupY tbl k with
    | some (.strV s) =>
      match renameKeys tbl rest with
      | some r => some ((s, v) :: r)
      | none => none
    | some _ => none
    | none =>
      match renameKeys tbl rest with
      | some r => some ((k, v) :: r)
      | none => none

/-- Python dict-comprehension semantics on a list of bindings: later
occurrences of a key update the earlier position in place. -/
def dictOfList (l : List (String × Yaml)) : List (String × Yaml) :=
  l.foldl (fun acc kv => updateY acc kv.1 kv.2) []

/-- One iteration of the loop of `fix_tailored_locale_headings`: the guard
`"locale" in data and data["locale"]`, the walrus
`if tailored := locale_settings.pop(TAILORED_Dict, None):` (the pop removes
the `sections` table even when it is falsy; a truthy non-mapping
`locale_settings` has no `pop` accepting a string, which Python rejects),
then the guard `"cv" in data and "sections" in data["cv"]` and the rebuild of
`data["cv"]["sections"]` with renamed keys. -/
def fix_one_heading (data : Yaml) : Yaml × Option PyErr :=
  match data with
  | .map dl =>
    match lookupY dl "locale" with
    | none => (data, none)
    | some ls =>
      if ls.truthy then
        match ls with
        | .map lsl =>
          match lookupY lsl "sections" with
          | none => (data, none)
          | some tailored =>
            let dl' := updateY dl "locale" (.map (removeY lsl "sections"))
            if tailored.truthy then
              match lookupY dl' "cv" with
              | none => (.map dl', none)
              | some cv =>
                match pyContains cv "sections" with
                | none => (.map dl', some .typeError)
                | some false => (.map dl', none)
                | some true =>
                  match cv with
                  | .map cvl =>
                    match lookupY cvl "sections" with
                    | none => (.map dl', none)
                    | some sections =>
                      match sections with
                      | .map secs =>
                        match tailored with
                        | .map tbl =>
                          match renameKeys tbl secs with
                          | some renamed =>
                            (.map (updateY dl' "cv"
                                (.map (updateY cvl "sections"
                                  (.map (dictOfList renamed))))), none)
                          | none => (.map dl', some .typeError)
                        | _ => (.map dl', some .typeError)
                      | _ => (.map dl', some .typeError)
                  | _ => (.map dl', some .typeError)
            else (.map dl', none)
        | _ => (data, some .typeError)
      else (data, none)
  | _ =>
    match pyContains data "locale" with
    | none => (data, some .typeError)
    | some true => (data, some .typeError)
    | some false => (data, none)

/-- `fix_tailored_locale_headings` from `process_multi_locale.py`, as the
state of `locale_data` when the loop finishes or raises, with the raised
exception in the second component. -/
def fix_tailored_locale_headings :
    List (String × Yaml) → List (String × Yaml) × Option PyErr
  | [] => ([], none)
  | (locale, data) :: rest =>
    let r := fix_one_heading data
    match r.2 with
    | some e => ((locale, r.1) :: rest, some e)
    | none =>
      let rr := fix_tailored_locale_headings rest
      ((locale, r.1) :: rr.1, rr.2)

/-- The declared locale list of the document, when it is a YAML sequence of
strings; `none` when it has any other shape (outside the modeled scope of the
script, whose `for locale in locales` assumes an iterable of codes). -/
def localeStrings : Yaml → Option (List String)
  | .seq l =>
    l.mapM (fun v => match v with | .strV s => some s | _ => none)
  | _ => none

/-- `process_multi_locale_file` from `process_multi_locale.py`, modeled after
the YAML file has been loaded into `data` (file access, YAML parsing and the
final rendering loop are external collaborators): the `locale` key is
required, every declared locale must be available (`discover_other_locales`
is modeled by the `discovered` parameter, with `"en"` appended as in the
source), and only then is the document hoisted per locale and post-processed
by `fix_locale_paths` and `fix_tailored_locale_headings`. -/
def process_multi_locale_file (data : List (String × Yaml))
    (discovered : List String) : Except PyErr (List (String × Yaml)) :=
  if containsKey data "locale" = false then
    .error (.valueError "The input file must contain a 'locale' key.")
  else
    match lookupY data "locale" with
    | none => .error (.valueError "The input file must contain a 'locale' key.")
    | some localesVal =>
      match localeStrings localesVal with
      | none => .error .typeError
      | some locales =>
        let available_locales := discovered ++ ["en"]
        match locales.find? (fun locale => !available_locales.contains locale) with
        | some locale =>
          .error (.valueError ("Locale " ++ locale ++ " is not available in RenderCV."))
        | none =>
          let processed := hoist_languages_to_top (Yaml.map data) locales
          let r1 := fix_locale_paths processed
          match r1.2 with
          | some e => .error e
          | none =>
            let r2 := fix_tailored_locale_headings r1.1
            match r2.2 with
            | some e => .error e
            | none => .ok r2.1

mutual

/-- No mapping anywhere in the tree holds a key of `langs_set`: the
locale-free documents of the specification. -/
def localeFree (langs_set : List String) : Yaml → Bool
  | .map l => localeFreeEntries langs_set l
  | .seq l => localeFreeItems langs_set l
  | _ => true

/-- `localeFree` over the entries of a mapping. -/
def localeFreeEntries (langs_set : List String) :
    List (String × Yaml) → Bool
  | [] => true
  | (k, v) :: rest =>
    !langs_set.contains k && localeFree langs_set v && localeFreeEntries langs_set rest

/-- `localeFree` over the members of a sequence. -/
def localeFreeItems (langs_set : List String) : List Yaml → Bool
  | [] => true
  | v :: rest => localeFree langs_set v && localeFreeItems langs_set rest

end

/-- The YAML null test used to mirror Python `selected is None`. -/
def Yaml.isNull : Yaml → Bool
  | .nullV => true
  | _ => false

/-- A `render_command` entry satisfies the Path Localizer: it is not a
string-valued `_path` entry, or its value contains the `LOCALE` token. -/
def pathEntryOk (kv : String × Yaml) : Bool :=
  match kv.2 with
  | .strV s => !strEndsWith kv.1 "_path" || strContains s "LOCALE"
  | _ => true

/-- The substitution the Path Localizer applies to one `render_command`
entry: `LOCALE` replaced by the locale code in string-valued `_path` entries,
everything else untouched. -/
def substPath (locale : String) (kv : String × Yaml) : String × Yaml :=
  match kv.2 with
  | .strV s =>
    if strEndsWith kv.1 "_path" then (kv.1, .strV (s.replace "LOCALE" locale)) else kv
  | _ => kv

/-- The display key the Heading Localizer gives a section: the (string)
table entry when present, the original key otherwise (`tailored.get(k, k)`). -/
def getDisplay (tbl : List (String × Yaml)) (k : String) : String :=
  match lookupY tbl k with
  | some (.strV s) => s
  | _ => k

/-- The entries of a mapping value (empty for non-mappings). -/
def Yaml.entries : Yaml → List (String × Yaml)
  | .map l => l
  | _ => []

/-- A document whose only content is `settings.render_command`, used to
exhibit the in-place behavior of the Path Localizer. -/
def pathsDoc (rcl : List (String × Yaml)) : Yaml :=
  .map [("settings", .map [("render_command", .map rcl)])]

theorem lookupY_append (l1 l2 : List (String × Yaml)) (k : String) :
    lookupY (l1 ++ l2) k = (lookupY l1 k).or (lookupY l2 k) := by
  induction l1 with
  | nil => simp [lookupY]
  | cons kv t ih =>
    obtain ⟨k1, v1⟩ := kv
    by_cases h : k1 = k
    · simp [lookupY, h]
    · simp [lookupY, h, ih]

theorem lookupY_isSome_of_eq_some {l : List (String × Yaml)} {k : String} {v : Yaml}
    (h : lookupY l k = some v) : containsKey l k = true := by
  simp [containsKey, h]

theorem merge_entries_keys (a b : List (String × Yaml)) :
    (merge_entries a b).map Prod.fst = a.map Prod.fst := by
  induction a with
  | nil => simp [merge_entries]
  | cons kv rest ih =>
    obtain ⟨k, va⟩ := kv
    rw [merge_entries]
    cases h : lookupY b k <;> simp [ih]

theorem lookupY_merge_entries (a b : List (String × Yaml)) (k : String) :
    lookupY (merge_entries a b) k =
      match lookupY a k with
      | none => none
      | some va =>
        some (match lookupY b k with
              | some vb => if va.isDict && vb.isDict then deep_merge va vb else vb
              | none => va) := by
  induction a with
  | nil => simp [merge_entries, lookupY]
  | cons kv rest ih =>
    obtain ⟨k1, va⟩ := kv
    rw [merge_entries]
    by_cases hk : k1 = k
    · subst hk
      cases h : lookupY b k1 <;> simp [lookupY, h]
    · cases h : lookupY b k1 <;> simp [lookupY, hk, ih]

theorem lookupY_filter_notContains (a b : List (String × Yaml)) (k : String)
    (h : containsKey a k = false) :
    lookupY (b.filter (fun kv => !containsKey a kv.1)) k = lookupY b k := by
  induction b with
  | nil => simp
  | cons kv t ih =>
    obtain ⟨k1, v1⟩ := kv
    by_cases hk : k1 = k
    · subst hk
      simp [List.filter_cons, h, lookupY]
    · by_cases hc : containsKey a k1
      · simp [List.filter_cons, hc, lookupY, hk, ih]
      · simp [List.filter_cons, hc, lookupY, hk, ih]

theorem build_entries_eq_map (l : List (String × Yaml)) (lang : String)
    (ls : List String) :
    build_entries l lang ls = l.map (fun kv => (kv.1, build_for_lang kv.2 lang ls)) := by
  induction l with
  | nil => rw [build_entries]; simp
  | cons kv rest ih =>
    obtain ⟨k, v⟩ := kv
    rw [build_entries]
    simp [ih]

theorem build_items_eq_map (l : List Yaml) (lang : String) (ls : List String) :
    build_items l lang ls = l.map (fun v => build_for_lang v lang ls) := by
  induction l with
  | nil => rw [build_items]; simp
  | cons v rest ih =>
    rw [build_items]
    simp [ih]

theorem lookupY_map_value (l : List (String × Yaml)) (f : Yaml → Yaml) (k : String) :
    lookupY (l.map (fun kv => (kv.1, f kv.2))) k = (lookupY l k).map f := by
  induction l with
  | nil => simp [lookupY]
  | cons kv t ih =>
    obtain ⟨k1, v1⟩ := kv
    by_cases hk : k1 = k
    · simp [lookupY, hk]
    · simp [lookupY, hk, ih]

theorem updateY_self {l : List (String × Yaml)} {k : String} {v : Yaml}
    (h : lookupY l k = some v) : updateY l k v = l := by
  induction l with
  | nil => simp [lookupY] at h
  | cons kv t ih =>
    obtain ⟨k1, v1⟩ := kv
    by_cases hk : k1 = k
    · simp [lookupY, hk] at h
      simp [updateY, hk, h]
    · simp [lookupY, hk] at h
      simp [updateY, hk, ih h]

theorem lookupY_updateY_ne (l : List (String × Yaml)) (k k' : String) (v : Yaml)
    (h : k ≠ k') : lookupY (updateY l k v) k' = lookupY l k' := by
  induction l with
  | nil => simp [updateY, lookupY, h]
  | cons kv t ih =>
    obtain ⟨k1, v1⟩ := kv
    by_cases hk : k1 = k
    · subst hk
      simp [updateY, lookupY, h]
    · simp [updateY, hk, lookupY, ih]

theorem lookupY_removeY_nodup {l : List (String × Yaml)} {k : String}
    (h : (l.map Prod.fst).Nodup) : lookupY (removeY l k) k = none := by
  induction l with
  | nil => simp [removeY, lookupY]
  | cons kv t ih =>
    obtain ⟨k1, v1⟩ := kv
    simp only [List.map_cons, List.nodup_cons] at h
    by_cases hk : k1 = k
    · subst hk
      rw [removeY]
      simp only [if_pos rfl]
      cases hl : lookupY t k1 with
      | none => exact hl
      | some v =>
        exfalso
        apply h.1
        clear ih h
        induction t with
        | nil => simp [lookupY] at hl
        | cons kv2 t2 ih2 =>
          obtain ⟨k2, v2⟩ := kv2
          by_cases hk2 : k2 = k1
          · simp [hk2]
          · simp only [lookupY, hk2, if_neg, not_false_iff] at hl
            simp [ih2 hl]
    · rw [removeY]
      rw [if_neg hk]
      rw [lookupY, if_neg hk]
      exact ih h.2

theorem mem_of_lookupY : ∀ {l : List (String × Yaml)} {k : String} {v : Yaml},
    lookupY l k = some v → (k, v) ∈ l
  | (k1, v1) :: t, k, v, h => by
    by_cases hk : k1 = k
    · subst hk
      simp only [lookupY, if_pos rfl] at h
      cases h
      exact List.mem_cons_self _ _
    · simp only [lookupY, hk, if_neg, not_false_iff] at h
      exact List.mem_cons_of_mem _ (mem_of_lookupY h)

theorem one_le_sizeOf_yaml (v : Yaml) : 1 ≤ sizeOf v := by
  cases v <;> simp_arith

theorem build_for_lang_scalar (v : Yaml) (lang : String) (ls : List String)
    (hd : v.isDict = false) (hl : v.isList = false) :
    build_for_lang v lang ls = v := by
  cases v with
  | map l => simp [Yaml.isDict] at hd
  | seq l => simp [Yaml.isList] at hl
  | nullV => simp [build_for_lang]
  | boolV b => simp [build_for_lang]
  | intV n => simp [build_for_lang]
  | strV s => simp [build_for_lang]

theorem deep_merge_not_both (a b : Yaml) (h : a.isDict = false ∨ b.isDict = false) :
    deep_merge a b = b := by
  cases a <;> cases b <;> simp [Yaml.isDict] at h <;> simp [deep_merge]

theorem localeFreeEntries_forall {ls : List String} {l : List (String × Yaml)}
    (h : localeFreeEntries ls l = true) :
    ∀ kv ∈ l, ls.contains kv.1 = false ∧ localeFree ls kv.2 = true := by
  induction l with
  | nil => intro kv hm; cases hm
  | cons kv0 t ih =>
    obtain ⟨k, v⟩ := kv0
    rw [localeFreeEntries] at h
    simp only [Bool.and_eq_true, Bool.not_eq_true'] at h
    intro kv hm
    rcases List.mem_cons.mp hm with rfl | hm
    · exact ⟨h.1.1, h.1.2⟩
    · exact ih h.2 kv hm

theorem localeFreeItems_forall {ls : List String} {l : List Yaml}
    (h : localeFreeItems ls l = true) : ∀ v ∈ l, localeFree ls v = true := by
  induction l with
  | nil => intro v hm; cases hm
  | cons v0 t ih =>
    rw [localeFreeItems] at h
    simp only [Bool.and_eq_true] at h
    intro v hm
    rcases List.mem_cons.mp hm with rfl | hm
    · exact h.1
    · exact ih h.2 v hm

theorem map_eq_self_of_forall {α : Type} (l : List α) (f : α → α)
    (h : ∀ x ∈ l, f x = x) : l.map f = l := by
  induction l with
  | nil => simp
  | cons x t ih =>
    simp only [List.map_cons, h x (List.mem_cons_self _ _),
      ih (fun y hy => h y (List.mem_cons_of_mem _ hy))]

theorem build_for_lang_localeFree (lang : String) (ls : List String) :
    ∀ n : Nat, ∀ node : Yaml, sizeOf node ≤ n → localeFree ls node = true →
      build_for_lang node lang ls = node := by
  intro n
  induction n with
  | zero =>
    intro node hsz _
    have := one_le_sizeOf_yaml node
    omega
  | succ n ih =>
    intro node hsz hfree
    cases node with
    | map l =>
      rw [localeFree] at hfree
      have hkeys := localeFreeEntries_forall hfree
      have hempty : (l.map Prod.fst).filter (fun k => ls.contains k) = [] := by
        rw [List.filter_eq_nil_iff]
        intro k hk
        rcases List.mem_map.mp hk with ⟨kv, hkv, rfl⟩
        simpa using (hkeys kv hkv).1
      rw [build_for_lang]
      simp only [hempty, ne_eq, not_true_eq_false, dite_false]
      rw [build_entries_eq_map]
      refine congrArg Yaml.map (map_eq_self_of_forall _ _ ?_)
      intro kv hm
      obtain ⟨k, v⟩ := kv
      have hszv : sizeOf v ≤ n := by
        have h1 := List.sizeOf_lt_of_mem hm
        simp only [Yaml.map.sizeOf_spec] at hsz
        simp only [Prod.mk.sizeOf_spec] at h1
        omega
      simp [ih v hszv (hkeys _ hm).2]
    | seq items =>
      rw [localeFree] at hfree
      have hitems := localeFreeItems_forall hfree
      rw [build_for_lang]
      rw [build_items_eq_map]
      refine congrArg Yaml.seq (map_eq_self_of_forall _ _ ?_)
      intro v hm
      have hszv : sizeOf v ≤ n := by
        have h1 := List.sizeOf_lt_of_mem hm
        simp only [Yaml.seq.sizeOf_spec] at hsz
        omega
      exact ih v hszv (hitems v hm)
    | nullV => simp [build_for_lang]
    | boolV b => simp [build_for_lang]
    | intV i => simp [build_for_lang]
    | strV s => simp [build_for_lang]

theorem containsKey_false_iff {l : List (String × Yaml)} {k : String} :
    containsKey l k = false ↔ lookupY l k = none := by
  cases h : lookupY l k <;> simp [containsKey, h]

theorem fix_rc_all_ok (locale : String) (rcl : List (String × Yaml))
    (h : ∀ kv ∈ rcl, pathEntryOk kv = true) :
    fix_rc locale rcl = (rcl.map (substPath locale), none) := by
  induction rcl with
  | nil => simp [fix_rc]
  | cons kv rest ih =>
    obtain ⟨k, v⟩ := kv
    have hk := h (k, v) (List.mem_cons_self _ _)
    have hrest : ∀ kv ∈ rest, pathEntryOk kv = true :=
      fun kv hm => h kv (List.mem_cons_of_mem _ hm)
    cases v with
    | strV s =>
      simp only [pathEntryOk, Bool.or_eq_true, Bool.not_eq_true'] at hk
      by_cases he : strEndsWith k "_path" = true
      · have hc : strContains s "LOCALE" = true := by
          rcases hk with h1 | h1
          · rw [he] at h1; cases h1
          · exact h1
        simp [fix_rc, he, hc, ih hrest, substPath]
      · simp only [Bool.not_eq_true] at he
        simp [fix_rc, he, ih hrest, substPath]
    | nullV => simp [fix_rc, ih hrest, substPath]
    | boolV b => simp [fix_rc, ih hrest, substPath]
    | intV n => simp [fix_rc, ih hrest, substPath]
    | seq l => simp [fix_rc, ih hrest, substPath]
    | map l => simp [fix_rc, ih hrest, substPath]

theorem fix_rc_first_bad (locale : String) (rcl : List (String × Yaml))
    (kv : String × Yaml)
    (h : rcl.find? (fun kv => !pathEntryOk kv) = some kv) :
    (fix_rc locale rcl).2 =
      some (.valueError ("Path '" ++ kv.1 ++ "' must include 'LOCALE' keyword.")) := by
  induction rcl with
  | nil => simp at h
  | cons kv0 rest ih =>
    obtain ⟨k, v⟩ := kv0
    by_cases hb : pathEntryOk (k, v) = true
    · rw [List.find?_cons_of_neg _ (by simp [hb])] at h
      cases v with
      | strV s =>
        simp only [pathEntryOk, Bool.or_eq_true, Bool.not_eq_true'] at hb
        by_cases he : strEndsWith k "_path" = true
        · have hc : strContains s "LOCALE" = true := by
            rcases hb with h1 | h1
            · rw [he] at h1; cases h1
            · exact h1
          simp [fix_rc, he, hc, ih h]
        · simp only [Bool.not_eq_true] at he
          simp [fix_rc, he, ih h]
      | nullV => simp [fix_rc, ih h]
      | boolV b => simp [fix_rc, ih h]
      | intV n => simp [fix_rc, ih h]
      | seq l => simp [fix_rc, ih h]
      | map l => simp [fix_rc, ih h]
    · rw [List.find?_cons_of_pos _ (by simpa using hb)] at h
      cases h
      cases v with
      | strV s =>
        simp only [pathEntryOk, Bool.or_eq_true, Bool.not_eq_true'] at hb
        push_neg at hb
        have hb2 := hb
        simp only [not_or, Bool.not_eq_false, Bool.not_eq_true] at hb2
        simp [fix_rc, hb2.1, hb2.2]
      | nullV => simp [pathEntryOk] at hb
      | boolV b => simp [pathEntryOk] at hb
      | intV n => simp [pathEntryOk] at hb
      | seq l => simp [pathEntryOk] at hb
      | map l => simp [pathEntryOk] at hb

theorem renameKeys_strings (tbl : List (String × Yaml))
    (htbl : ∀ kv ∈ tbl, (kv.2).isStr = true) (secs : List (String × Yaml)) :
    renameKeys tbl secs = some (secs.map (fun kv => (getDisplay tbl kv.1, kv.2))) := by
  induction secs with
  | nil => simp [renameKeys]
  | cons kv rest ih =>
    obtain ⟨k, v⟩ := kv
    rw [renameKeys]
    cases hl : lookupY tbl k with
    | none => simp [getDisplay, hl, ih]
    | some w =>
      have hw := htbl (k, w) (mem_of_lookupY hl)
      cases w with
      | strV s => simp [getDisplay, hl, ih]
      | nullV => simp [Yaml.isStr] at hw
      | boolV b => simp [Yaml.isStr] at hw
      | intV n => simp [Yaml.isStr] at hw
      | seq l => simp [Yaml.isStr] at hw
      | map l => simp [Yaml.isStr] at hw

theorem updateY_append {l : List (String × Yaml)} {k : String} {v : Yaml}
    (h : lookupY l k = none) : updateY l k v = l ++ [(k, v)] := by
  induction l with
  | nil => simp [updateY]
  | cons kv t ih =>
    obtain ⟨k1, v1⟩ := kv
    by_cases hk : k1 = k
    · subst hk
      simp [lookupY] at h
    · simp only [lookupY, hk, if_neg, not_false_iff] at h
      simp [updateY, hk, ih h]

theorem dictOfList_foldl (l : List (String × Yaml)) :
    ∀ acc : List (String × Yaml), (l.map Prod.fst).Nodup →
      (∀ kv ∈ l, containsKey acc kv.1 = false) →
      List.foldl (fun acc kv => updateY acc kv.1 kv.2) acc l = acc ++ l := by
  induction l with
  | nil => intro acc _ _; simp
  | cons kv t ih =>
    intro acc hnd hdisj
    obtain ⟨k, v⟩ := kv
    simp only [List.map_cons, List.nodup_cons] at hnd
    have hk : lookupY acc k = none :=
      containsKey_false_iff.mp (hdisj (k, v) (List.mem_cons_self _ _))
    simp only [List.foldl_cons]
    rw [updateY_append hk]
    rw [ih (acc ++ [(k, v)]) hnd.2]
    · simp
    · intro kv2 hm
      rw [containsKey_false_iff, lookupY_append]
      have hne : kv2.1 ≠ k := by
        intro heq
        exact hnd.1 (heq ▸ List.mem_map_of_mem Prod.fst hm)
      have h1 := containsKey_false_iff.mp (hdisj kv2 (List.mem_cons_of_mem _ hm))
      simp [h1, lookupY, Ne.symm hne]

theorem dictOfList_nodup (l : List (String × Yaml))
    (h : (l.map Prod.fst).Nodup) : dictOfList l = l := by
  rw [dictOfList, dictOfList_foldl l [] h]
  · simp
  · intro kv _
    simp [containsKey, lookupY]

theorem build_for_lang_map_eq (l : List (String × Yaml)) (lang : String)
    (ls : List String)
    (h : (l.map Prod.fst).filter (fun k => ls.contains k) ≠ []) :
    build_for_lang (Yaml.map l) lang ls =
      match lookupY l lang with
      | none =>
        build_for_lang (Yaml.map (l.filter (fun kv => !(ls.contains kv.1)))) lang ls
      | some Yaml.nullV =>
        build_for_lang (Yaml.map (l.filter (fun kv => !(ls.contains kv.1)))) lang ls
      | some selected =>
        deep_merge
          (build_for_lang (Yaml.map (l.filter (fun kv => !(ls.contains kv.1)))) lang ls)
          (build_for_lang selected lang ls) := by
  rw [build_for_lang]
  rw [dif_pos h]
  cases hlk : lookupY l lang with
  | none => simp [hlk]
  | some v => cases v <;> simp [hlk]

/-- C1 counterexample: the mapping `{en: null, x: 1}` has an entry for the
requested locale `en`, yet resolving it for `en` with `langSet = {en}` does
not give `deepMerge(commonResolved, resolve(node[en]))` — the implementation
treats the null branch like an absent one and returns the resolved common
part instead. -/
theorem build_branch_null_entry_not_merged :
    lookupY [("en", Yaml.nullV), ("x", Yaml.intV 1)] "en" = some Yaml.nullV ∧
    build_for_lang (Yaml.map [("en", Yaml.nullV), ("x", Yaml.intV 1)]) "en" ["en"] ≠
      deep_merge
        (build_for_lang (Yaml.map [("x", Yaml.intV 1)]) "en" ["en"])
        (build_for_lang Yaml.nullV "en" ["en"]) := by
  constructor
  · rfl
  · simp [build_for_lang, build_entries, build_items, deep_merge, merge_entries,
      lookupY, containsKey]

/-- C1 (amended): at a language-branch point (a mapping with at least one key
in `langSet`), the resolver strips all `langSet` keys to form the common part
and resolves it; if the node has no entry for the requested locale, or its
entry is YAML null, the result is the resolved common part, and otherwise the
result is `deepMerge` of the resolved common part with the resolved branch. -/
theorem build_for_lang_branch_point (l : List (String × Yaml)) (lang : String)
    (ls : List String)
    (h : (l.map Prod.fst).filter (fun k => ls.contains k) ≠ []) :
    build_for_lang (Yaml.map l) lang ls =
      match lookupY l lang with
      | none =>
        build_for_lang (Yaml.map (l.filter (fun kv => !(ls.contains kv.1)))) lang ls
      | some Yaml.nullV =>
        build_for_lang (Yaml.map (l.filter (fun kv => !(ls.contains kv.1)))) lang ls
      | some selected =>
        deep_merge
          (build_for_lang (Yaml.map (l.filter (fun kv => !(ls.contains kv.1)))) lang ls)
          (build_for_lang selected lang ls) :=
  build_for_lang_map_eq l lang ls h

/-- C1 witness: the amended branch-point equation at the concrete node
`{en: "a", x: 5}` for locale `en`. -/
theorem build_for_lang_branch_point_witness :
    build_for_lang (Yaml.map [("en", Yaml.strV "a"), ("x", Yaml.intV 5)]) "en" ["en"] =
      match lookupY [("en", Yaml.strV "a"), ("x", Yaml.intV 5)] "en" with
      | none =>
        build_for_lang (Yaml.map ([("en", Yaml.strV "a"), ("x", Yaml.intV 5)].filter
          (fun kv => !(["en"].contains kv.1)))) "en" ["en"]
      | some Yaml.nullV =>
        build_for_lang (Yaml.map ([("en", Yaml.strV "a"), ("x", Yaml.intV 5)].filter
          (fun kv => !(["en"].contains kv.1)))) "en" ["en"]
      | some selected =>
        deep_merge
          (build_for_lang (Yaml.map ([("en", Yaml.strV "a"), ("x", Yaml.intV 5)].filter
            (fun kv => !(["en"].contains kv.1)))) "en" ["en"])
          (build_for_lang selected "en" ["en"]) :=
  build_for_lang_branch_point _ "en" _ (by decide)

/-- C2: `deep_merge` of two mappings keeps all keys of `a` (in order, with
keys only in `b` appended), merges mutual-mapping values recursively and lets
`b` overwrite everything else; when either operand is not a mapping the result
is `b` outright. -/
theorem deep_merge_spec (a b : List (String × Yaml)) (x y : Yaml)
    (hxy : x.isDict = false ∨ y.isDict = false) :
    (∃ m, deep_merge (Yaml.map a) (Yaml.map b) = Yaml.map m ∧
      m.map Prod.fst =
        a.map Prod.fst ++ (b.filter (fun kv => !containsKey a kv.1)).map Prod.fst ∧
      ∀ k, lookupY m k =
        match lookupY a k, lookupY b k with
        | some va, some vb =>
          some (if va.isDict && vb.isDict then deep_merge va vb else vb)
        | some va, none => some va
        | none, some vb => some vb
        | none, none => none) ∧
    deep_merge x y = y := by
  refine ⟨⟨merge_entries a b ++ b.filter (fun kv => !containsKey a kv.1),
    ?_, ?_, ?_⟩, deep_merge_not_both x y hxy⟩
  · rw [deep_merge]
  · simp [merge_entries_keys]
  · intro k
    rw [lookupY_append, lookupY_merge_entries]
    cases ha : lookupY a k with
    | some va => cases hb : lookupY b k <;> simp
    | none =>
      have hcf : containsKey a k = false := containsKey_false_iff.mpr ha
      rw [lookupY_filter_notContains a b k hcf]
      cases hb : lookupY b k <;> simp

/-- C2 witness: the merge characterization at `a = {k: 1}`, `b = {k: 2, j: null}`
and the `b`-wins case at the non-mapping pair `(1, "s")`. -/
theorem deep_merge_spec_witness :
    deep_merge (Yaml.intV 1) (Yaml.strV "s") = Yaml.strV "s" :=
  (deep_merge_spec [("k", Yaml.intV 1)] [("k", Yaml.intV 2), ("j", Yaml.nullV)]
    (Yaml.intV 1) (Yaml.strV "s") (Or.inl (by decide))).2

/-- C3 counterexample: the mapping `{en: null}` contains the requested locale
key `en` bound to the scalar null, yet the result of resolving it is not
`deepMerge(commonResolved, null)` (which would be null): the implementation
falls back to the resolved common part `{}`. -/
theorem build_branch_null_scalar_counterexample :
    lookupY [("en", Yaml.nullV)] "en" = some Yaml.nullV ∧
    build_for_lang (Yaml.map [("en", Yaml.nullV)]) "en" ["en", "fr"] ≠
      deep_merge
        (build_for_lang (Yaml.map ([] : List (String × Yaml))) "en" ["en", "fr"])
        (build_for_lang Yaml.nullV "en" ["en", "fr"]) := by
  constructor
  · rfl
  · simp [build_for_lang, build_entries, build_items, deep_merge, merge_entries,
      lookupY, containsKey]

/-- C3 (amended): at a language-branch point whose entry for the requested
locale is a scalar (neither mapping nor sequence), the scalar wins outright
via `deepMerge` when it is non-null, while a null scalar is treated like an
absent key and the result falls back to the resolved common part. -/
theorem build_for_lang_selected_scalar (l : List (String × Yaml)) (lang : String)
    (ls : List String) (v : Yaml)
    (hbranch : (l.map Prod.fst).filter (fun k => ls.contains k) ≠ [])
    (hsel : lookupY l lang = some v)
    (hd : v.isDict = false) (hlst : v.isList = false) :
    build_for_lang (Yaml.map l) lang ls =
      if v.isNull then
        build_for_lang (Yaml.map (l.filter (fun kv => !(ls.contains kv.1)))) lang ls
      else v := by
  rw [build_for_lang_map_eq l lang ls hbranch, hsel]
  cases v with
  | nullV => simp [Yaml.isNull]
  | boolV b =>
    simp [Yaml.isNull, build_for_lang_scalar _ lang ls hd hlst,
      deep_merge_not_both _ _ (Or.inr hd)]
  | intV n =>
    simp [Yaml.isNull, build_for_lang_scalar _ lang ls hd hlst,
      deep_merge_not_both _ _ (Or.inr hd)]
  | strV s =>
    simp [Yaml.isNull, build_for_lang_scalar _ lang ls hd hlst,
      deep_merge_not_both _ _ (Or.inr hd)]
  | seq items => simp [Yaml.isList] at hlst
  | map m => simp [Yaml.isDict] at hd

/-- C3 witness: the scalar branch `{fr: "CV (FR)"}` wins for locale `fr`. -/
theorem build_for_lang_selected_scalar_witness :
    build_for_lang (Yaml.map [("fr", Yaml.strV "CV (FR)")]) "fr" ["en", "fr"] =
      if (Yaml.strV "CV (FR)").isNull then
        build_for_lang (Yaml.map ([("fr", Yaml.strV "CV (FR)")].filter
          (fun kv => !(["en", "fr"].contains kv.1)))) "fr" ["en", "fr"]
      else Yaml.strV "CV (FR)" :=
  build_for_lang_selected_scalar [("fr", Yaml.strV "CV (FR)")] "fr" ["en", "fr"]
    (Yaml.strV "CV (FR)") (by decide) rfl rfl rfl

/-- C4 counterexample: resolving `{title: {en: "CV", fr: "CV (FR)"}, name: "X"}`
for declared locale `de` with `langSet = {en, fr, de}` keeps the key `title`
(bound to the empty mapping); it does not drop it as the claim states. -/
theorem title_key_retained_counterexample :
    build_for_lang
        (Yaml.map [("title", Yaml.map [("en", Yaml.strV "CV"), ("fr", Yaml.strV "CV (FR)")]),
          ("name", Yaml.strV "X")]) "de" ["en", "fr", "de"] =
      Yaml.map [("title", Yaml.map []), ("name", Yaml.strV "X")] ∧
    containsKey [("title", Yaml.map []), ("name", Yaml.strV "X")] "title" = true := by
  constructor
  · simp [build_for_lang, build_entries, build_items, deep_merge, merge_entries,
      lookupY, containsKey]
  · rfl

/-- C4 (amended): when a language-branch point has no non-language sibling
content and no branch for the requested locale (absent or null), the enclosing
mapping retains the node's key, bound to an empty mapping, in the resolved
output. -/
theorem branch_without_common_or_locale_key_retained
    (outer : List (String × Yaml)) (k0 lang : String) (ls : List String)
    (inner : List (String × Yaml))
    (houter : ∀ kv ∈ outer, ls.contains kv.1 = false)
    (hk0 : lookupY outer k0 = some (Yaml.map inner))
    (hne : inner ≠ [])
    (hinner : ∀ kv ∈ inner, ls.contains kv.1 = true)
    (habs : lookupY inner lang = none ∨ lookupY inner lang = some Yaml.nullV) :
    lookupY (build_for_lang (Yaml.map outer) lang ls).entries k0 =
      some (Yaml.map []) := by
  have hnil : build_for_lang (Yaml.map ([] : List (String × Yaml))) lang ls =
      Yaml.map [] := by
    simp [build_for_lang, build_entries]
  have hempty : (outer.map Prod.fst).filter (fun k => ls.contains k) = [] := by
    rw [List.filter_eq_nil_iff]
    intro k hk
    rcases List.mem_map.mp hk with ⟨kv, hkv, rfl⟩
    simpa using houter kv hkv
  have hinner_res : build_for_lang (Yaml.map inner) lang ls = Yaml.map [] := by
    have hpresent2 : (inner.map Prod.fst).filter (fun k => ls.contains k) ≠ [] := by
      have hself : (inner.map Prod.fst).filter (fun k => ls.contains k) =
          inner.map Prod.fst := by
        rw [List.filter_eq_self]
        intro k hk
        rcases List.mem_map.mp hk with ⟨kv, hkv, rfl⟩
        exact hinner kv hkv
      rw [hself]
      simpa using hne
    have hcommon : inner.filter (fun kv => !(ls.contains kv.1)) = [] := by
      rw [List.filter_eq_nil_iff]
      intro kv hkv
      simp only [Bool.not_eq_true', Bool.not_eq_false]
      exact hinner kv hkv
    rw [build_for_lang_map_eq inner lang ls hpresent2]
    rcases habs with h | h
    · rw [h]
      rw [hcommon]
      exact hnil
    · rw [h]
      rw [hcommon]
      exact hnil
  rw [build_for_lang]
  simp only [hempty, ne_eq, not_true_eq_false, dite_false]
  rw [build_entries_eq_map]
  rw [Yaml.entries]
  rw [lookupY_map_value outer (fun v => build_for_lang v lang ls) k0, hk0]
  simp [hinner_res]

/-- C4 witness: the amended behavior at the specification example, resolved
for `de`. -/
theorem branch_without_common_or_locale_key_retained_witness :
    lookupY (build_for_lang
        (Yaml.map [("title", Yaml.map [("en", Yaml.strV "CV"), ("fr", Yaml.strV "CV (FR)")]),
          ("name", Yaml.strV "X")]) "de" ["en", "fr", "de"]).entries "title" =
      some (Yaml.map []) :=
  branch_without_common_or_locale_key_retained _ "title" "de" _ _
    (by decide) rfl (by simp) (by decide) (Or.inl rfl)

/-- C5: the resolver is the identity on locale-free trees — for every document
in which no mapping at any nesting level has a key of `langSet`, resolution
returns a structurally identical tree for every locale. -/
theorem build_for_lang_localeFree_id (node : Yaml) (lang : String) (ls : List String)
    (h : localeFree ls node = true) : build_for_lang node lang ls = node :=
  build_for_lang_localeFree lang ls (sizeOf node) node le_rfl h

/-- C5 witness: identity on a concrete locale-free document. -/
theorem build_for_lang_localeFree_id_witness :
    build_for_lang
        (Yaml.map [("cv", Yaml.map [("name", Yaml.strV "X")]),
          ("list", Yaml.seq [Yaml.intV 1, Yaml.nullV])]) "en" ["en", "fr"] =
      Yaml.map [("cv", Yaml.map [("name", Yaml.strV "X")]),
        ("list", Yaml.seq [Yaml.intV 1, Yaml.nullV])] :=
  build_for_lang_localeFree_id _ "en" ["en", "fr"]
    (by simp [localeFree, localeFreeEntries, localeFreeItems])

theorem isEmpty_false_of_ne_nil {α : Type} {l : List α} (h : l ≠ []) :
    l.isEmpty = false := by
  cases l with
  | nil => cases h rfl
  | cons a t => rfl

/-- C6: the Path Localizer on a document whose `settings.render_command`
exists (and is a non-empty mapping, hence truthy): when every string-valued
`_path` entry contains `LOCALE`, the pass substitutes the locale into exactly
those entries and leaves the rest unchanged; when some such entry lacks the
token, the pass fails with the `ValueError` naming the first offending key. -/
theorem fix_locale_paths_spec (locale : String) (dl sl rcl : List (String × Yaml))
    (hs : lookupY dl "settings" = some (Yaml.map sl)) (hsne : sl ≠ [])
    (hrc : lookupY sl "render_command" = some (Yaml.map rcl)) (hrcne : rcl ≠ []) :
    ((∀ kv ∈ rcl, pathEntryOk kv = true) →
      fix_locale_paths [(locale, Yaml.map dl)] =
        ([(locale, Yaml.map (updateY dl "settings" (Yaml.map (updateY sl "render_command"
            (Yaml.map (rcl.map (substPath locale)))))))], none)) ∧
    (∀ kv, rcl.find? (fun kv => !(pathEntryOk kv)) = some kv →
      (fix_locale_paths [(locale, Yaml.map dl)]).2 =
        some (PyErr.valueError ("Path '" ++ kv.1 ++ "' must include 'LOCALE' keyword."))) := by
  have hsne' := isEmpty_false_of_ne_nil hsne
  have hrcne' := isEmpty_false_of_ne_nil hrcne
  have hshape : fix_one_paths locale (Yaml.map dl) =
      (Yaml.map (updateY dl "settings" (Yaml.map (updateY sl "render_command"
        (Yaml.map (fix_rc locale rcl).1)))), (fix_rc locale rcl).2) := by
    rw [fix_one_paths]
    simp [hs, hrc, Yaml.truthy, hsne', hrcne', pyContains, containsKey]
  constructor
  · intro hok
    rw [fix_locale_paths]
    simp [hshape, fix_rc_all_ok locale rcl hok, fix_locale_paths]
  · intro kv hfind
    rw [fix_locale_paths]
    have herr := fix_rc_first_bad locale rcl kv hfind
    rcases hcase : fix_rc locale rcl with ⟨res, e⟩
    rw [hcase] at herr hshape
    simp only at herr
    subst herr
    simp [hshape]

/-- C6 witness: substitution succeeds on a concrete document whose
`render_command` holds one non-path entry and one valid `_path` entry. -/
theorem fix_locale_paths_spec_witness :
    fix_locale_paths [("es", Yaml.map [("settings", Yaml.map [("render_command",
        Yaml.map [("design", Yaml.strV "d"), ("pdf_path", Yaml.strV "o/LOCALE/c.pdf")])])])] =
      ([("es", Yaml.map (updateY [("settings", Yaml.map [("render_command",
          Yaml.map [("design", Yaml.strV "d"), ("pdf_path", Yaml.strV "o/LOCALE/c.pdf")])])]
          "settings" (Yaml.map (updateY [("render_command", Yaml.map [("design", Yaml.strV "d"),
          ("pdf_path", Yaml.strV "o/LOCALE/c.pdf")])] "render_command"
          (Yaml.map ([("design", Yaml.strV "d"), ("pdf_path", Yaml.strV "o/LOCALE/c.pdf")].map
            (substPath "es")))))))], none) :=
  (fix_locale_paths_spec "es"
    [("settings", Yaml.map [("render_command",
      Yaml.map [("design", Yaml.strV "d"), ("pdf_path", Yaml.strV "o/LOCALE/c.pdf")])])]
    [("render_command",
      Yaml.map [("design", Yaml.strV "d"), ("pdf_path", Yaml.strV "o/LOCALE/c.pdf")])]
    [("design", Yaml.strV "d"), ("pdf_path", Yaml.strV "o/LOCALE/c.pdf")]
    rfl (by simp) rfl (by simp)).1 (by decide)

/-- C7: the Heading Localizer on a document whose `locale` settings branch is
a non-empty mapping holding a string-valued `sections` table: the table is
popped from the branch (gone afterwards, the branch being a Python dict with
unique keys), and when `cv.sections` exists every section key is renamed
through the table (values untouched, unmatched keys unchanged, assuming the
display keys stay distinct as Python dict keys); when `cv` or `cv.sections`
does not exist the popped table is silently discarded with no error. -/
theorem fix_tailored_locale_headings_spec (locale : String)
    (dl lsl tbl : List (String × Yaml))
    (hl : lookupY dl "locale" = some (Yaml.map lsl)) (hlne : lsl ≠ [])
    (htbl : lookupY lsl "sections" = some (Yaml.map tbl))
    (hstr : ∀ kv ∈ tbl, (kv.2).isStr = true) :
    ((lsl.map Prod.fst).Nodup → lookupY (removeY lsl "sections") "sections" = none) ∧
    ((lookupY dl "cv" = none ∨
      (∃ cvl, lookupY dl "cv" = some (Yaml.map cvl) ∧ lookupY cvl "sections" = none)) →
      fix_tailored_locale_headings [(locale, Yaml.map dl)] =
        ([(locale, Yaml.map (updateY dl "locale" (Yaml.map (removeY lsl "sections"))))],
         none)) ∧
    (∀ cvl secs, lookupY dl "cv" = some (Yaml.map cvl) →
      lookupY cvl "sections" = some (Yaml.map secs) →
      (secs.map (fun kv => getDisplay tbl kv.1)).Nodup →
      fix_tailored_locale_headings [(locale, Yaml.map dl)] =
        ([(locale, Yaml.map (updateY (updateY dl "locale" (Yaml.map (removeY lsl "sections")))
            "cv" (Yaml.map (updateY cvl "sections"
              (Yaml.map (secs.map (fun kv => (getDisplay tbl kv.1, kv.2))))))))],
         none)) := by
  have hlne' := isEmpty_false_of_ne_nil hlne
  have hcv_eq : lookupY (updateY dl "locale" (Yaml.map (removeY lsl "sections"))) "cv" =
      lookupY dl "cv" := lookupY_updateY_ne dl "locale" "cv" _ (by decide)
  refine ⟨fun hnd => lookupY_removeY_nodup hnd, ?_, ?_⟩
  · intro hcv
    rw [fix_tailored_locale_headings, fix_one_heading]
    by_cases htb : tbl = []
    · subst htb
      simp [hl, Yaml.truthy, hlne', htbl, fix_tailored_locale_headings]
    · have htb' := isEmpty_false_of_ne_nil htb
      rcases hcv with hcv | ⟨cvl, hcvl, hsec⟩
      · simp [hl, Yaml.truthy, hlne', htbl, htb', hcv_eq, hcv,
          fix_tailored_locale_headings]
      · simp [hl, Yaml.truthy, hlne', htbl, htb', hcv_eq, hcvl, hsec, pyContains,
          containsKey, fix_tailored_locale_headings]
  · intro cvl secs hcvl hsecs hnodup
    rw [fix_tailored_locale_headings, fix_one_heading]
    by_cases htb : tbl = []
    · subst htb
      have hsecs_id : secs.map (fun kv => (getDisplay ([] : List (String × Yaml)) kv.1, kv.2))
          = secs := by
        apply map_eq_self_of_forall
        intro kv hm
        cases kv
        simp [getDisplay, lookupY]
      have hupd1 : updateY cvl "sections" (Yaml.map secs) = cvl := updateY_self hsecs
      have hupd2 : updateY (updateY dl "locale" (Yaml.map (removeY lsl "sections"))) "cv"
          (Yaml.map cvl) = updateY dl "locale" (Yaml.map (removeY lsl "sections")) :=
        updateY_self (hcv_eq.trans hcvl)
      simp [hl, Yaml.truthy, hlne', htbl, fix_tailored_locale_headings,
        hsecs_id, hupd1, hupd2]
    · have htb' := isEmpty_false_of_ne_nil htb
      have hren := renameKeys_strings tbl hstr secs
      have hdict : dictOfList (secs.map (fun kv => (getDisplay tbl kv.1, kv.2))) =
          secs.map (fun kv => (getDisplay tbl kv.1, kv.2)) := by
        apply dictOfList_nodup
        simpa [List.map_map, Function.comp] using hnodup
      simp [hl, Yaml.truthy, hlne', htbl, htb', hcv_eq, hcvl, hsecs, pyContains,
        containsKey, hren, hdict, fix_tailored_locale_headings]

/-- C7 witness: the specification example — table `{education: "Formación"}`
renames `education` and passes `skills` through, values untouched. -/
theorem fix_tailored_locale_headings_spec_witness :
    fix_tailored_locale_headings [("es", Yaml.map
        [("locale", Yaml.map [("sections", Yaml.map [("education", Yaml.strV "Formación")])]),
         ("cv", Yaml.map [("sections",
            Yaml.map [("education", Yaml.seq []), ("skills", Yaml.seq [])])])])] =
      ([("es", Yaml.map (updateY (updateY
          [("locale", Yaml.map [("sections", Yaml.map [("education", Yaml.strV "Formación")])]),
           ("cv", Yaml.map [("sections",
              Yaml.map [("education", Yaml.seq []), ("skills", Yaml.seq [])])])]
          "locale" (Yaml.map (removeY
            [("sections", Yaml.map [("education", Yaml.strV "Formación")])] "sections")))
          "cv" (Yaml.map (updateY
            [("sections", Yaml.map [("education", Yaml.seq []), ("skills", Yaml.seq [])])]
            "sections" (Yaml.map ([("education", Yaml.seq []), ("skills", Yaml.seq [])].map
              (fun kv => (getDisplay [("education", Yaml.strV "Formación")] kv.1,
                kv.2))))))))], none) :=
  (fix_tailored_locale_headings_spec "es"
    [("locale", Yaml.map [("sections", Yaml.map [("education", Yaml.strV "Formación")])]),
     ("cv", Yaml.map [("sections",
        Yaml.map [("education", Yaml.seq []), ("skills", Yaml.seq [])])])]
    [("sections", Yaml.map [("education", Yaml.strV "Formación")])]
    [("education", Yaml.strV "Formación")]
    rfl (by simp) rfl (by decide)).2.2
    [("sections", Yaml.map [("education", Yaml.seq []), ("skills", Yaml.seq [])])]
    [("education", Yaml.seq []), ("skills", Yaml.seq [])]
    rfl rfl (by decide)

theorem localeStrings_strV (locs : List String) :
    localeStrings (Yaml.seq (locs.map Yaml.strV)) = some locs := by
  induction locs with
  | nil => rfl
  | cons s t ih =>
    simp only [localeStrings, List.map_cons, List.mapM_cons] at ih ⊢
    simp_all

/-- C8: if any declared locale is not among the recognized ones (the
discovered locales plus `"en"`), processing fails with the `ValueError`
naming the first unsupported locale, before any per-locale resolution: the
result is an error, not a locale-to-document mapping (and in particular no
partial output). -/
theorem process_unsupported_locale (data : List (String × Yaml))
    (discovered : List String) (locs : List String) (bad : String)
    (hl : lookupY data "locale" = some (Yaml.seq (locs.map Yaml.strV)))
    (hbad : locs.find? (fun s => !((discovered ++ ["en"]).contains s)) = some bad) :
    process_multi_locale_file data discovered =
      Except.error (PyErr.valueError ("Locale " ++ bad ++ " is not available in RenderCV.")) := by
  have hck : containsKey data "locale" = true := by simp [containsKey, hl]
  rw [process_multi_locale_file]
  rw [if_neg (by simp [hck])]
  simp only [hl, localeStrings_strV]
  rw [hbad]

/-- C8 witness: the declared list `["en", "xx"]` fails on `"xx"` when only
`"fr"` is discovered. -/
theorem process_unsupported_locale_witness :
    process_multi_locale_file [("locale", Yaml.seq [Yaml.strV "en", Yaml.strV "xx"])] ["fr"] =
      Except.error (PyErr.valueError ("Locale " ++ "xx" ++ " is not available in RenderCV.")) :=
  process_unsupported_locale _ ["fr"] ["en", "xx"] "xx" rfl (by decide)

/-- C9: on a resolved document whose top-level `locale` value is a non-empty
sequence — the shape the declared locale list actually has — the Heading
Localizer does not degrade gracefully: popping `sections` from a list is a
`TypeError`, so the pass fails and the document is returned as it stood. -/
theorem fix_tailored_headings_seq_locale (locale : String)
    (dl : List (String × Yaml)) (xs : List Yaml)
    (hl : lookupY dl "locale" = some (Yaml.seq xs)) (hne : xs ≠ []) :
    fix_tailored_locale_headings [(locale, Yaml.map dl)] =
      ([(locale, Yaml.map dl)], some PyErr.typeError) := by
  have hne' := isEmpty_false_of_ne_nil hne
  rw [fix_tailored_locale_headings, fix_one_heading]
  simp [hl, Yaml.truthy, hne']

/-- C9 witness: a document declaring `locale: [en]` makes the pass fail. -/
theorem fix_tailored_headings_seq_locale_witness :
    fix_tailored_locale_headings [("en", Yaml.map [("locale", Yaml.seq [Yaml.strV "en"])])] =
      ([("en", Yaml.map [("locale", Yaml.seq [Yaml.strV "en"])])], some PyErr.typeError) :=
  fix_tailored_headings_seq_locale "en" _ _ rfl (by simp)

/-- C10: the Path Localizer is not atomic on error — with a valid `_path`
entry iterated before an invalid one, the raised `ValueError` leaves the
earlier entry, and every document processed before the offending one, already
substituted in the input structure. -/
theorem fix_locale_paths_not_atomic (loc1 loc2 k1 v1 k2 v2 : String)
    (h1 : strEndsWith k1 "_path" = true) (h2 : strContains v1 "LOCALE" = true)
    (h3 : strEndsWith k2 "_path" = true) (h4 : strContains v2 "LOCALE" = false) :
    fix_locale_paths
        [(loc1, pathsDoc [(k1, Yaml.strV v1)]),
         (loc2, pathsDoc [(k1, Yaml.strV v1), (k2, Yaml.strV v2)])] =
      ([(loc1, pathsDoc [(k1, Yaml.strV (v1.replace "LOCALE" loc1))]),
        (loc2, pathsDoc [(k1, Yaml.strV (v1.replace "LOCALE" loc2)), (k2, Yaml.strV v2)])],
       some (PyErr.valueError ("Path '" ++ k2 ++ "' must include 'LOCALE' keyword."))) := by
  simp [fix_locale_paths, fix_one_paths, pathsDoc, fix_rc, h1, h2, h3, h4,
    lookupY, updateY, pyContains, containsKey, Yaml.truthy]

/-- C10 witness: the non-atomic failure at concrete paths. -/
theorem fix_locale_paths_not_atomic_witness :
    fix_locale_paths
        [("es", pathsDoc [("a_path", Yaml.strV "x/LOCALE/y")]),
         ("fr", pathsDoc [("a_path", Yaml.strV "x/LOCALE/y"), ("b_path", Yaml.strV "plain")])] =
      ([("es", pathsDoc [("a_path", Yaml.strV ("x/LOCALE/y".replace "LOCALE" "es"))]),
        ("fr", pathsDoc [("a_path", Yaml.strV ("x/LOCALE/y".replace "LOCALE" "fr")),
          ("b_path", Yaml.strV "plain")])],
       some (PyErr.valueError ("Path '" ++ "b_path" ++ "' must include 'LOCALE' keyword."))) :=
  fix_locale_paths_not_atomic "es" "fr" "a_path" "x/LOCALE/y" "b_path" "plain"
    (by decide) (by decide) (by decide) (by decide)

end RenderCVMultiLocale
